import Mathlib

/-!
Verification of the header-chain ingestion core (eth/stagedsync/stage_headers.go).

The Go code is shallowly embedded: hashes are modelled as `Nat` (the zero
hash of `common.Hash{}` is `0`), `uint64` block numbers as `Nat` with the
wrap of `number - 1` made explicit (`pred64`), arbitrary-precision
difficulties and total difficulties as `Nat`.  The persistent store
(rawdb over the HeadersBucket, total-difficulty, canonical-hash,
HeaderNumberBucket tables and the head-header-hash singleton) is a record
of association lists; a batch with read-your-writes is the same record
threaded through the insertion pipeline, and `commit` is returning it.
Errors returned before `batch.Commit()` leave the database untouched,
which the embedding renders by returning the original store in the
failure outcome.
-/

/-- A block header as used by the stage: parent hash, number, difficulty,
timestamp and the cached hash (`HashCache()`), which is an opaque digest
here. -/
structure Header where
  parentHash : Nat
  number : Nat
  difficulty : Nat
  time : Nat
  hash : Nat
deriving DecidableEq, Repr

/-- The header store: header-by-(number,hash), td-by-(number,hash),
canonical-hash-by-number, hash-to-number, and the head-header-hash
singleton. -/
structure Store where
  headers : List (Nat × Nat × Header)
  tds : List (Nat × Nat × Nat)
  canonical : List (Nat × Nat)
  headerNumbers : List (Nat × Nat)
  headHash : Nat
deriving DecidableEq, Repr

/-- rawdb.ReadHeader(db, hash, number): the header stored under key
(number, hash), or none. -/
def readHeader (s : Store) (hash number : Nat) : Option Header :=
  (s.headers.find? (fun e => e.1 == number && e.2.1 == hash)).map (fun e => e.2.2)

/-- rawdb.ReadTd(db, hash, number): the total difficulty stored under key
(number, hash), or none. -/
def readTd (s : Store) (hash number : Nat) : Option Nat :=
  (s.tds.find? (fun e => e.1 == number && e.2.1 == hash)).map (fun e => e.2.2)

/-- The canonical-hash entry at a number, when present. -/
def lookupCanonical (s : Store) (number : Nat) : Option Nat :=
  (s.canonical.find? (fun e => e.1 == number)).map (fun e => e.2)

/-- rawdb.ReadCanonicalHash(db, number): the canonical hash at a number;
an absent entry reads as the zero hash, as in Go. -/
def readCanonicalHash (s : Store) (number : Nat) : Nat :=
  (lookupCanonical s number).getD 0

/-- rawdb.ReadHeaderNumber(db, hash): the HeaderNumberBucket entry. -/
def readHeaderNumber (s : Store) (hash : Nat) : Option Nat :=
  (s.headerNumbers.find? (fun e => e.1 == hash)).map (fun e => e.2)

/-- rawdb.ReadHeadHeaderHash(db). -/
def readHeadHeaderHash (s : Store) : Nat :=
  s.headHash

/-- rawdb.WriteCanonicalHash(db, hash, number): latest write shadows. -/
def writeCanonicalHash (s : Store) (hash number : Nat) : Store :=
  { s with canonical := (number, hash) :: s.canonical }

/-- rawdb.WriteTd(db, hash, number, td). -/
def writeTd (s : Store) (hash number td : Nat) : Store :=
  { s with tds := (number, hash, td) :: s.tds }

/-- batch.Put(HeadersBucket, HeaderKey(number, hash), rlp(header)): the
header record keyed by its own number and cached hash. -/
def writeHeader (s : Store) (h : Header) : Store :=
  { s with headers := (h.number, h.hash, h) :: s.headers }

/-- rawdb.DeleteCanonicalHash(db, number). -/
def deleteCanonicalHash (s : Store) (number : Nat) : Store :=
  { s with canonical := s.canonical.filter (fun e => !(e.1 == number)) }

/-- rawdb.WriteHeadHeaderHash(db, hash). -/
def writeHeadHeaderHash (s : Store) (hash : Nat) : Store :=
  { s with headHash := hash }

/-- batch.Put(HeaderNumberBucket, hash, EncodeBlockNumber(number)). -/
def writeHeaderNumber (s : Store) (hash number : Nat) : Store :=
  { s with headerNumbers := (hash, number) :: s.headerNumbers }

/-- Go's `n - 1` on uint64: wraps to 2^64 - 1 at zero. -/
def pred64 (n : Nat) : Nat :=
  if n = 0 then 2 ^ 64 - 1 else n - 1

/-- The failure kinds of InsertHeaderChain.  The last four stand for the
paths where the Go code would fail on absent store data (nil big.Int or
nil header dereference) or walk without progress in the deep-fork loop. -/
inductive InsertError where
  | blacklistedHash
  | unknownParent
  | brokenChain
  | missingParentTd
  | missingHeadNumber
  | missingHeadTd
  | missingForkHeader
deriving DecidableEq, Repr

/-- What one call of InsertHeaderChain yields: the Go return values
(newCanonical, reorg, forkBlockNumber, err) together with the database
after the call (unchanged unless the batch committed) and the `ignored`
counter the write loop keeps. -/
structure InsertOutcome where
  newCanonical : Bool
  reorg : Bool
  forkBlock : Nat
  err : Option InsertError
  db : Store
  ignored : Nat
deriving DecidableEq, Repr

/-- An error return before the batch commits: the result triple is zeroed
and the database is the one the call started from. -/
def failOutcome (db : Store) (e : InsertError) : InsertOutcome :=
  ⟨false, false, 0, some e, db, 0⟩

/-- The already-canonical dedup walk (lines 102-129): advance while each
header's hash equals the canonical hash at its number, aborting on a
banned hash; the first mismatch breaks out of the loop, so headers from
there on are not examined (in particular not for banned hashes). -/
def dedupAlreadyCanonical (db : Store) (badHashes : List Nat) :
    List Header → Except InsertError (List Header)
  | [] => .ok []
  | h :: rest =>
    if h.hash == readCanonicalHash db h.number then
      if badHashes.contains h.hash then .error .blacklistedHash
      else dedupAlreadyCanonical db badHashes rest
    else .ok (h :: rest)

/-- The linkage check of the TD loop (lines 142-147): some consecutive
pair fails headers[i].ParentHash == headers[i-1].HashCache(). -/
def brokenPair : List Header → Bool
  | h1 :: h2 :: rest => (h2.parentHash != h1.hash) || brokenPair (h2 :: rest)
  | _ => false

/-- The accumulated difficulty of a batch. -/
def sumDifficulty (hs : List Header) : Nat :=
  (hs.map (fun h => h.difficulty)).sum

/-- The fork-choice decision (lines 160-169): strictly more work wins; at
equal work a strictly lower last number wins, an equal last number is
decided by the coin, and a higher last number loses. -/
def forkChoice (externTd localTd lastNumber headNumber : Nat) (coin : Bool) : Bool :=
  if externTd > localTd then true
  else if externTd == localTd then
    if lastNumber < headNumber then true
    else if lastNumber == headNumber then coin
    else false
  else false

/-- The state threaded through the write loop (lines 179-223). -/
structure LoopState where
  batch : Store
  td : Nat
  forkBlock : Nat
  fork : Bool
  ignored : Nat
deriving DecidableEq, Repr

/-- One iteration of the write loop (lines 185-223): difficulty is always
added to the running TD; when not new-canonical a header whose hash is in
the hash-to-number table is skipped with `ignored` incremented; otherwise
the fork point is tracked against the batch's canonical table and the
canonical pointer (if new-canonical), the TD and the header record are
written. -/
def writeStep (newCanonical deepFork : Bool) (st : LoopState) (h : Header) : LoopState :=
  let td := st.td + h.difficulty
  if !newCanonical && (readHeaderNumber st.batch h.hash).isSome then
    { st with td := td, ignored := st.ignored + 1 }
  else
    let ch := readCanonicalHash st.batch h.number
    let hashesMatch := h.hash == ch
    let fb :=
      if newCanonical && !deepFork && !st.fork && !hashesMatch then (pred64 h.number, true)
      else if newCanonical && hashesMatch then (h.number, true)
      else (st.forkBlock, st.fork)
    let batch := if newCanonical then writeCanonicalHash st.batch h.hash h.number else st.batch
    let batch := writeTd batch h.hash h.number td
    let batch := writeHeader batch h
    { batch := batch, td := td, forkBlock := fb.1, fork := fb.2, ignored := st.ignored }

/-- The write loop over the whole deduplicated batch. -/
def writeLoop (newCanonical deepFork : Bool) (hs : List Header) (st : LoopState) : LoopState :=
  hs.foldl (writeStep newCanonical deepFork) st

/-- The deep-fork reconciliation loop (lines 228-243): rewrite canonical
pointers walking parent links until the canonical hash at the walk number
already matches.  The Go loop has no bound of its own; the fuel given by
the caller covers every walk that descends through stored headers, and
running out (or a missing header, a nil dereference in Go) fails the
cycle. -/
def deepForkWalk (batch : Store) (fuel forkHash forkNumber : Nat) :
    Except InsertError (Store × Nat) :=
  match fuel with
  | 0 => .error .missingForkHeader
  | fuel + 1 =>
    if forkHash == readCanonicalHash batch forkNumber then .ok (batch, forkNumber)
    else
      let batch := writeCanonicalHash batch forkHash forkNumber
      match readHeader batch forkHash forkNumber with
      | none => .error .missingForkHeader
      | some fh => deepForkWalk batch fuel fh.parentHash (pred64 fh.number)

/-- Deep-fork reconciliation (lines 224-247): start from the header just
before the batch, walk and rewrite, then set the canonical pointer at the
batch's parent. -/
def deepForkReconcile (batch : Store) (first : Header) : Except InsertError (Store × Nat) :=
  match readHeader batch first.parentHash (pred64 first.number) with
  | none => .error .missingForkHeader
  | some forkHeader =>
    match deepForkWalk batch (pred64 forkHeader.number + 2) forkHeader.parentHash
        (pred64 forkHeader.number) with
    | .error e => .error e
    | .ok (batch, forkBlockNumber) =>
      .ok (writeCanonicalHash batch first.parentHash (pred64 first.number), forkBlockNumber)

/-- Delete canonical pointers at lo, lo+1, ..., lo+k-1. -/
def deleteCount (batch : Store) (lo : Nat) : Nat → Store
  | 0 => batch
  | k + 1 => deleteCount (deleteCanonicalHash batch lo) (lo + 1) k

/-- The reorg cleanup loop (lines 249-256): delete canonical pointers for
numbers lo..hi inclusive (nothing when lo > hi). -/
def deleteRange (batch : Store) (lo hi : Nat) : Store :=
  deleteCount batch lo (hi + 1 - lo)

/-- InsertHeaderChain (lines 99-290).  `badHashes` stands for the
config-time core.BadHashes set and `coin` for the rand.Float64() < 0.5
draw of the equal-TD, equal-height tie-break.  The outcome carries the Go
return triple, the error, the database after the call and the `ignored`
counter. -/
def InsertHeaderChain (badHashes : List Nat) (coin : Bool) (db : Store)
    (headers0 : List Header) : InsertOutcome :=
  match dedupAlreadyCanonical db badHashes headers0 with
  | .error e => failOutcome db e
  | .ok [] => ⟨false, false, 0, none, db, 0⟩
  | .ok (first :: rest) =>
    match readHeader db first.parentHash (pred64 first.number) with
    | none => failOutcome db .unknownParent
    | some _ =>
      match readTd db first.parentHash (pred64 first.number) with
      | none => failOutcome db .missingParentTd
      | some parentTd =>
        if brokenPair (first :: rest) then failOutcome db .brokenChain
        else
          match readHeaderNumber db (readHeadHeaderHash db) with
          | none => failOutcome db .missingHeadNumber
          | some headNumber =>
            match readTd db (readHeadHeaderHash db) headNumber with
            | none => failOutcome db .missingHeadTd
            | some localTd =>
              let externTd := parentTd + sumDifficulty (first :: rest)
              let lastHeader := rest.getLastD first
              let newCanonical := forkChoice externTd localTd lastHeader.number headNumber coin
              let deepFork := newCanonical &&
                !(first.parentHash == readCanonicalHash db (pred64 first.number))
              let st := writeLoop newCanonical deepFork (first :: rest)
                ⟨db, parentTd, 0, false, 0⟩
              match (if deepFork then deepForkReconcile st.batch first
                     else .ok (st.batch, st.forkBlock)) with
              | .error e => failOutcome db e
              | .ok (batch1, forkBlockNumber) =>
                let reorg := newCanonical && decide (forkBlockNumber < headNumber)
                let batch2 := if reorg then
                    deleteRange batch1 (lastHeader.number + 1) headNumber
                  else batch1
                let batch3 := if newCanonical then
                    writeHeadHeaderHash
                      (writeHeaderNumber batch2 lastHeader.hash lastHeader.number)
                      lastHeader.hash
                  else batch2
                ⟨newCanonical, reorg, forkBlockNumber, none, batch3, st.ignored⟩

/-- The seal bitmap VerifyHeaders builds (lines 80-97): `checkFreq` is a
Go int, so its division is truncated; a negative `checkFreq` makes the
loop empty but still marks the last index. -/
def makeSeals (len : Nat) (checkFreq : Int) : List Bool :=
  let seals := List.replicate len false
  if checkFreq = 0 then seals
  else
    let iters := (Int.tdiv (len : Int) checkFreq).toNat
    let seals := (List.range iters).foldl
      (fun s i =>
        let index := i * checkFreq.toNat
        let index := if len ≤ index then len - 1 else index
        s.set index true)
      seals
    seals.set (len - 1) true

/-- An ancestor request from the verification engine (consensus
HeaderRequest): up to `number` ancestors starting at `highestHash` at
height `highestNumber`, walking parent links. -/
structure HeaderRequest where
  id : Nat
  highestHash : Nat
  highestNumber : Nat
  number : Nat
deriving DecidableEq, Repr

/-- The error block of a HeaderResponse; the only kind produced by the
coordinator is unknown-parent. -/
structure BlockError where
  hash : Nat
  number : Nat
deriving DecidableEq, Repr

/-- The coordinator's answer to an ancestor request. -/
structure HeaderResponse where
  id : Nat
  headers : List Header
  blockError : Option BlockError
deriving DecidableEq, Repr

/-- The backward walk of the ancestor-request handler (lines 367-383):
read `k` headers starting at (hash, n) and descending, returning the
headers collected in walk order, or the (hash, number) at which a read
came back empty. -/
def walkBack (db : Store) : Nat → Nat → Nat → List Header × Option (Nat × Nat)
  | 0, _, _ => ([], none)
  | k + 1, hash, n =>
    match readHeader db hash n with
    | none => ([], some (hash, n))
    | some h =>
      let r := walkBack db k h.parentHash (n - 1)
      (h :: r.1, r.2)

/-- The HeaderRequest case of the verification coordinator (lines
353-399): clamp the wanted count to highestNumber + 1, walk backward, and
either answer with the collected headers or with no headers and a block
error naming the missing header's hash and its child's number. -/
def handleHeaderRequest (db : Store) (req : HeaderRequest) : HeaderResponse :=
  let number := if req.highestNumber + 1 < req.number then req.highestNumber + 1 else req.number
  match walkBack db number req.highestHash req.highestNumber with
  | (hs, none) => { id := req.id, headers := hs, blockError := none }
  | (_, some (h, n)) => { id := req.id, headers := [], blockError := some ⟨h, n + 1⟩ }

/-- The numbers `hi, hi - 1, ..., hi + 1 - k` in descending order. -/
def descList (hi k : Nat) : List Nat :=
  (List.range' (hi + 1 - k) k).reverse

/-- A store is well formed when every header record sits at the key of
its own number (decidable, for concrete witnesses). -/
def storeWF (s : Store) : Bool :=
  s.headers.all (fun e => e.2.2.number == e.1)

/-- The genesis header of the spec's concrete scenarios (configured TD 1). -/
def hdrG : Header := ⟨0, 0, 1, 0, 100⟩

/-- H1(parent=G, diff=2). -/
def hdrH1 : Header := ⟨100, 1, 2, 0, 101⟩

/-- H2(parent=H1, diff=2). -/
def hdrH2 : Header := ⟨101, 2, 2, 0, 102⟩

/-- The store holding only the genesis block, head = genesis, TD 1. -/
def db0 : Store := ⟨[(0, 100, hdrG)], [(0, 100, 1)], [(0, 100)], [(100, 0)], 100⟩

/-- The store after scenario 1: canonical chain G, H1, H2, head H2, TD 5. -/
def state1 : Store := (InsertHeaderChain [] true db0 [hdrH1, hdrH2]).db

/-- The sibling H1Prime(parent=G, diff=4) of scenario 3: TD ties at 5 with a
lower last number. -/
def hdrH1t : Header := ⟨100, 1, 4, 0, 201⟩

/-- A header with a banned hash sitting at index 2 of a batch on top of H2. -/
def hdrX3 : Header := ⟨102, 3, 2, 0, 666⟩

/-- A banned header that is nevertheless canonical at number 1. -/
def hdrB : Header := ⟨100, 1, 1, 0, 50⟩

/-- A store whose canonical entry at 1 is the banned header hdrB. -/
def dbBad : Store :=
  ⟨[(0, 100, hdrG), (1, 50, hdrB)], [(0, 100, 1), (1, 50, 2)],
   [(0, 100), (1, 50)], [(100, 0), (50, 1)], 50⟩

/-- A header whose parent is in no store: its insertion fails with
unknown parent. -/
def hdrX : Header := ⟨999, 5, 1, 0, 300⟩

/-- A non-canonical sibling of H1 with difficulty 1. -/
def hdrX9 : Header := ⟨100, 1, 1, 0, 201⟩

/-- The canonical chain G, H1, H2 with hdrX9 already present in the
headers table at (1, 201) with a stale TD record 99, but absent from the
hash-to-number table. -/
def dbC9 : Store :=
  ⟨[(0, 100, hdrG), (1, 101, hdrH1), (2, 102, hdrH2), (1, 201, hdrX9)],
   [(0, 100, 1), (1, 101, 3), (2, 102, 5), (1, 201, 99)],
   [(0, 100), (1, 101), (2, 102)], [(100, 0), (102, 2)], 102⟩

/-- A store whose hash-to-number table maps hash 201 to 1, with nothing
else in it. -/
def db9w : Store := ⟨[], [], [], [(201, 1)], 0⟩

/-- Every branch of InsertHeaderChain returns either a successful outcome
or the zeroed triple with the database it started from: the error paths
all go through failOutcome before the batch commits. -/
theorem insertHeaderChain_shape (badHashes : List Nat) (coin : Bool) (db : Store)
    (headers : List Header) :
    (InsertHeaderChain badHashes coin db headers).err = none ∨
    ((InsertHeaderChain badHashes coin db headers).newCanonical = false ∧
     (InsertHeaderChain badHashes coin db headers).reorg = false ∧
     (InsertHeaderChain badHashes coin db headers).forkBlock = 0 ∧
     (InsertHeaderChain badHashes coin db headers).db = db) := by
  unfold InsertHeaderChain
  repeat' split
  all_goals try dsimp only
  all_goals repeat' split
  all_goals simp [failOutcome]

/-- The canonical-prefix dedup walk returns the empty remainder on a
batch of headers that are all canonical at their numbers and none of
which is banned. -/
theorem dedup_ok_nil (db : Store) (badHashes : List Nat) :
    ∀ headers : List Header,
    (∀ h ∈ headers, h.hash = readCanonicalHash db h.number) →
    (∀ h ∈ headers, badHashes.contains h.hash = false) →
    dedupAlreadyCanonical db badHashes headers = .ok [] := by
  intro headers
  induction headers with
  | nil => intro _ _; rfl
  | cons h t ih =>
    intro hcanon hgood
    have h1 : h.hash = readCanonicalHash db h.number := hcanon h (by simp)
    have h2 : badHashes.contains h.hash = false := hgood h (by simp)
    simp only [dedupAlreadyCanonical]
    rw [if_pos (by simp [h1]), if_neg (by rw [h2]; simp)]
    exact ih (fun x hx => hcanon x (by simp [hx])) (fun x hx => hgood x (by simp [hx]))

/-- C10: whenever InsertHeaderChain returns an error, the accompanying
result triple is exactly (false, false, 0): no partial fork-choice
outcome is ever observable together with a failure. -/
theorem C10_theorem (badHashes : List Nat) (coin : Bool) (db : Store)
    (headers : List Header) (e : InsertError)
    (herr : (InsertHeaderChain badHashes coin db headers).err = some e) :
    (InsertHeaderChain badHashes coin db headers).newCanonical = false ∧
    (InsertHeaderChain badHashes coin db headers).reorg = false ∧
    (InsertHeaderChain badHashes coin db headers).forkBlock = 0 := by
  rcases insertHeaderChain_shape badHashes coin db headers with h | h
  · rw [herr] at h; cases h
  · exact ⟨h.1, h.2.1, h.2.2.1⟩

/-- C10 witness: the unknown-parent failure on the genesis-only store
carries the zeroed triple. -/
theorem C10_witness :
    (InsertHeaderChain [] true db0 [hdrX]).newCanonical = false ∧
    (InsertHeaderChain [] true db0 [hdrX]).reorg = false ∧
    (InsertHeaderChain [] true db0 [hdrX]).forkBlock = 0 :=
  C10_theorem [] true db0 [hdrX] .unknownParent (by decide)

/-- C2: the code contradicts the claim that a banned hash anywhere in
the batch aborts with BlacklistedHash.  The bad-hash test sits inside
the already-canonical dedup loop, whose break on the first non-canonical
header is taken before the test, so a banned header at index 2 of a
fresh batch is inserted, committed, and even becomes the head with no
error returned. -/
theorem C2_code_bug_eval :
    List.contains [666] hdrX3.hash = true ∧
    (InsertHeaderChain [666] true db0 [hdrH1, hdrH2, hdrX3]).err = none ∧
    (InsertHeaderChain [666] true db0 [hdrH1, hdrH2, hdrX3]).newCanonical = true ∧
    (InsertHeaderChain [666] true db0 [hdrH1, hdrH2, hdrX3]).db.headHash = hdrX3.hash ∧
    readHeader (InsertHeaderChain [666] true db0 [hdrH1, hdrH2, hdrX3]).db
      hdrX3.hash 3 = some hdrX3 := by
  decide

/-- C3 counterexample: scenario 1 of the spec returns fork_block 0, not
2: the batch's first header H1 does not match the (absent, hence zero)
canonical hash at number 1, so forkBlockNumber is set to 1 - 1 = 0 and
never advanced. -/
theorem C3_counterexample :
    (InsertHeaderChain [] true db0 [hdrH1, hdrH2]).forkBlock ≠ 2 ∧
    (InsertHeaderChain [] false db0 [hdrH1, hdrH2]).forkBlock ≠ 2 := by
  decide

/-- C3 as amended: inserting [H1, H2] over the genesis store returns
new_canonical = true, reorg = false and fork_block = 0, with head H2 and
TD(H2) = 5, whichever way the tie-break coin would land. -/
theorem C3_theorem :
    ∀ coin : Bool,
      (InsertHeaderChain [] coin db0 [hdrH1, hdrH2]).newCanonical = true ∧
      (InsertHeaderChain [] coin db0 [hdrH1, hdrH2]).reorg = false ∧
      (InsertHeaderChain [] coin db0 [hdrH1, hdrH2]).forkBlock = 0 ∧
      (InsertHeaderChain [] coin db0 [hdrH1, hdrH2]).err = none ∧
      (InsertHeaderChain [] coin db0 [hdrH1, hdrH2]).db.headHash = hdrH2.hash ∧
      readTd (InsertHeaderChain [] coin db0 [hdrH1, hdrH2]).db hdrH2.hash 2 = some 5 := by
  intro coin
  cases coin <;> decide

/-- C4 counterexample: a batch whose single header is canonical at its
number but banned makes InsertHeaderChain return BlacklistedHash rather
than the claimed error-free (false, false, 0) no-op. -/
theorem C4_counterexample :
    readCanonicalHash dbBad 1 = hdrB.hash ∧
    (InsertHeaderChain [50] true dbBad [hdrB]).err = some .blacklistedHash := by
  decide

/-- C4 as amended: a batch of headers that are all already canonical at
their numbers, none of them banned (the empty batch included), is a
no-op returning (false, false, 0) with no error and the store unchanged. -/
theorem C4_theorem (badHashes : List Nat) (coin : Bool) (db : Store)
    (headers : List Header)
    (hcanon : ∀ h ∈ headers, h.hash = readCanonicalHash db h.number)
    (hgood : ∀ h ∈ headers, badHashes.contains h.hash = false) :
    InsertHeaderChain badHashes coin db headers = ⟨false, false, 0, none, db, 0⟩ := by
  have hd := dedup_ok_nil db badHashes headers hcanon hgood
  unfold InsertHeaderChain
  rw [hd]

/-- C4 witness: re-offering the canonical genesis header to the
genesis-only store changes nothing. -/
theorem C4_witness :
    InsertHeaderChain [] true db0 [hdrG] = ⟨false, false, 0, none, db0, 0⟩ :=
  C4_theorem [] true db0 [hdrG] (by decide) (by decide)

/-- C1 counterexample: from the state after scenario 1 (head H2 at
number 2, TD 5, all recorded in state1), inserting the single header
H1Prime(parent=G, diff=4) ties the TD at 5 with last number 1 < head
number 2 — and the code judges the batch canonical, not non-canonical
as claimed. -/
theorem C1_counterexample :
    state1.headHash = hdrH2.hash ∧
    readHeaderNumber state1 hdrH2.hash = some 2 ∧
    readTd state1 hdrH2.hash 2 = some 5 ∧
    (InsertHeaderChain [] true state1 [hdrH1t]).newCanonical = true ∧
    (InsertHeaderChain [] false state1 [hdrH1t]).newCanonical = true := by
  decide

/-- C1 as amended: at equal accumulated work, a batch whose last number
is strictly below the head number IS judged canonical (the code prefers
the shorter chain, the selfish-mining mitigation inherited from
go-ethereum); in particular the H1Prime scenario yields
new_canonical = true. -/
theorem C1_theorem :
    (∀ (externTd localTd lastNumber headNumber : Nat) (coin : Bool),
      externTd = localTd → lastNumber < headNumber →
      forkChoice externTd localTd lastNumber headNumber coin = true) ∧
    (∀ coin : Bool, (InsertHeaderChain [] coin state1 [hdrH1t]).newCanonical = true) := by
  constructor
  · intro e l ln hn c he hlt
    subst he
    simp [forkChoice, hlt]
  · intro c
    cases c <;> decide

/-- C1 witness: the tie at TD 5 with last number 1 against head number 2
is decided canonical. -/
theorem C1_witness : forkChoice 5 5 1 2 true = true :=
  C1_theorem.1 5 5 1 2 true rfl (by decide)

/-- C9 counterexample: hdrX9 is already present in dbC9's headers table
at its (number, hash) = (1, 201) (with a stale TD record 99) but is
absent from the hash-to-number table.  On a non-canonical insertion the
write loop does NOT skip it: ignored stays 0 and its TD record is
rewritten to 2, contradicting the claimed skip-and-count behaviour. -/
theorem C9_counterexample :
    readHeader dbC9 hdrX9.hash hdrX9.number = some hdrX9 ∧
    readTd dbC9 hdrX9.hash 1 = some 99 ∧
    (InsertHeaderChain [] true dbC9 [hdrX9]).newCanonical = false ∧
    (InsertHeaderChain [] true dbC9 [hdrX9]).err = none ∧
    (InsertHeaderChain [] true dbC9 [hdrX9]).ignored = 0 ∧
    readTd (InsertHeaderChain [] true dbC9 [hdrX9]).db hdrX9.hash 1 = some 2 := by
  decide

/-- The running TD of one write-loop step always grows by the header's
difficulty, in the skip branch as well as the write branch. -/
theorem writeStep_td (nc df : Bool) (st : LoopState) (h : Header) :
    (writeStep nc df st h).td = st.td + h.difficulty := by
  unfold writeStep
  split <;> rfl

/-- The running TD after the write loop is the initial TD plus the sum
of the processed difficulties. -/
theorem writeLoop_td (nc df : Bool) :
    ∀ (l : List Header) (st : LoopState),
    (writeLoop nc df l st).td = st.td + sumDifficulty l := by
  intro l
  induction l with
  | nil => intro st; simp [writeLoop, sumDifficulty]
  | cons h t ih =>
    intro st
    have : writeLoop nc df (h :: t) st = writeLoop nc df t (writeStep nc df st h) := rfl
    rw [this, ih, writeStep_td]
    simp [sumDifficulty]
    omega

/-- A TD record written by writeTd is read back. -/
theorem readTd_writeTd (s : Store) (hash number td : Nat) :
    readTd (writeTd s hash number td) hash number = some td := by
  simp [readTd, writeTd, List.find?]

/-- Writing a header record does not change the TD table. -/
theorem readTd_writeHeader (s : Store) (h : Header) (hash number : Nat) :
    readTd (writeHeader s h) hash number = readTd s hash number := rfl

/-- C9 as amended: in a non-canonical write loop, a header whose hash is
in the hash-to-number table of the batch is skipped — only the running
TD and the ignored counter change — while a header that is written gets
the TD record parent_td plus the sum of all batch difficulties up to and
including itself; either way the difficulty always enters the running
TD, so subsequent headers see the right value. -/
theorem C9_theorem (df : Bool) (headers : List Header) (db : Store) (parentTd : Nat)
    (i : Nat) (hi : i < headers.length) :
    (writeLoop false df (headers.take i) ⟨db, parentTd, 0, false, 0⟩).td
        = parentTd + sumDifficulty (headers.take i) ∧
    ((readHeaderNumber (writeLoop false df (headers.take i) ⟨db, parentTd, 0, false, 0⟩).batch
        (headers.get ⟨i, hi⟩).hash).isSome = true →
      writeStep false df (writeLoop false df (headers.take i) ⟨db, parentTd, 0, false, 0⟩)
          (headers.get ⟨i, hi⟩)
        = { writeLoop false df (headers.take i) ⟨db, parentTd, 0, false, 0⟩ with
            td := (writeLoop false df (headers.take i) ⟨db, parentTd, 0, false, 0⟩).td
              + (headers.get ⟨i, hi⟩).difficulty,
            ignored :=
              (writeLoop false df (headers.take i) ⟨db, parentTd, 0, false, 0⟩).ignored + 1 }) ∧
    ((readHeaderNumber (writeLoop false df (headers.take i) ⟨db, parentTd, 0, false, 0⟩).batch
        (headers.get ⟨i, hi⟩).hash).isSome = false →
      readTd (writeStep false df (writeLoop false df (headers.take i) ⟨db, parentTd, 0, false, 0⟩)
          (headers.get ⟨i, hi⟩)).batch
        (headers.get ⟨i, hi⟩).hash (headers.get ⟨i, hi⟩).number
        = some (parentTd + sumDifficulty (headers.take (i + 1)))) := by
  refine ⟨?_, ?_, ?_⟩
  · rw [writeLoop_td]
  · intro hin
    simp only [writeStep, hin]
    rfl
  · intro hin
    simp only [writeStep, hin]
    simp only [Bool.not_false, Bool.true_and, Bool.false_and, if_false, Bool.false_eq_true]
    rw [readTd_writeHeader, readTd_writeTd]
    have hsum : sumDifficulty (headers.take (i + 1))
        = sumDifficulty (headers.take i) + (headers.get ⟨i, hi⟩).difficulty := by
      simp only [sumDifficulty, List.take_succ, List.getElem?_eq_getElem hi,
        Option.toList_some, List.map_append, List.sum_append, List.map_cons,
        List.map_nil, List.sum_cons, List.sum_nil, Nat.add_zero, List.get_eq_getElem]
    rw [writeLoop_td, hsum]
    simp [Nat.add_assoc]

/-- C9 witness: a batch of one header whose hash the hash-to-number
table already maps is skipped with ignored incremented and the running
TD still advanced by its difficulty. -/
theorem C9_witness :
    writeStep false false ⟨db9w, 10, 0, false, 0⟩ hdrX9
      = ⟨db9w, 10 + hdrX9.difficulty, 0, false, 1⟩ :=
  (C9_theorem false [hdrX9] db9w 10 0 (by decide)).2.1 (by decide)

/-- The deep-fork walk can only fail with missingForkHeader. -/
theorem deepForkWalk_error (e : InsertError) :
    ∀ (fuel : Nat) (batch : Store) (forkHash forkNumber : Nat),
    deepForkWalk batch fuel forkHash forkNumber = .error e → e = .missingForkHeader := by
  intro fuel
  induction fuel with
  | zero =>
    intro batch fh fn h
    simp only [deepForkWalk] at h
    cases h
    rfl
  | succ k ih =>
    intro batch fh fn h
    simp only [deepForkWalk] at h
    split at h
    · cases h
    · split at h
      · cases h; rfl
      · exact ih _ _ _ h

/-- Deep-fork reconciliation can only fail with missingForkHeader. -/
theorem deepForkReconcile_error (batch : Store) (first : Header) (e : InsertError)
    (h : deepForkReconcile batch first = .error e) : e = .missingForkHeader := by
  unfold deepForkReconcile at h
  split at h
  · cases h; rfl
  · split at h
    · cases h
      exact deepForkWalk_error _ _ _ _ _ (by assumption)
    · cases h

/-- The reconcile-or-passthrough step of the pipeline can only fail
with missingForkHeader. -/
theorem ifReconcile_error (df : Bool) (b : Store) (first : Header) (fb : Nat) (e : InsertError)
    (h : (if df then deepForkReconcile b first else .ok (b, fb)) = .error e) :
    e = .missingForkHeader := by
  cases df
  · simp at h
  · simp only [if_true] at h
    exact deepForkReconcile_error _ _ _ h

/-- C5: once the prefix dedup leaves a non-empty remainder, the call
fails with UnknownParent exactly when the store has no header at
(first.number - 1, first.parent_hash); with the parent and its TD
present, a broken consecutive pair fails the call with BrokenChain; and
any failure leaves the store unchanged because the batch never
commits. -/
theorem C5_theorem (badHashes : List Nat) (coin : Bool) (db : Store) (headers0 : List Header)
    (first : Header) (rest : List Header)
    (hded : dedupAlreadyCanonical db badHashes headers0 = .ok (first :: rest)) :
    ((InsertHeaderChain badHashes coin db headers0).err = some .unknownParent ↔
      readHeader db first.parentHash (pred64 first.number) = none) ∧
    (readHeader db first.parentHash (pred64 first.number) ≠ none →
      readTd db first.parentHash (pred64 first.number) ≠ none →
      brokenPair (first :: rest) = true →
      (InsertHeaderChain badHashes coin db headers0).err = some .brokenChain) ∧
    (∀ e, (InsertHeaderChain badHashes coin db headers0).err = some e →
      (InsertHeaderChain badHashes coin db headers0).db = db) := by
  have hdb : ∀ e, (InsertHeaderChain badHashes coin db headers0).err = some e →
      (InsertHeaderChain badHashes coin db headers0).db = db := by
    intro e he
    rcases insertHeaderChain_shape badHashes coin db headers0 with h | h
    · rw [he] at h; cases h
    · exact h.2.2.2
  refine ⟨?_, ?_, hdb⟩
  · unfold InsertHeaderChain
    simp only [hded]
    split
    · rename_i heq
      simp [failOutcome, heq]
    · rename_i ph heq
      split
      · rename_i heq2
        simp [failOutcome, heq]
      · rename_i ptd heq2
        split
        · rename_i hbp
          simp [failOutcome, heq]
        · rename_i hbp
          split
          · rename_i heq3
            simp [failOutcome, heq]
          · rename_i hn heq3
            split
            · rename_i heq4
              simp [failOutcome, heq]
            · rename_i ltd heq4
              try dsimp only
              split
              · rename_i e heq5
                have he : e = .missingForkHeader := ifReconcile_error _ _ _ _ _ heq5
                subst he
                simp [failOutcome, heq]
              · rename_i p heq5
                simp [heq]
  · intro hpar hptd hbp
    unfold InsertHeaderChain
    simp only [hded]
    split
    · rename_i heq
      exact absurd heq hpar
    · rename_i ph heq
      split
      · rename_i heq2
        exact absurd heq2 hptd
      · rename_i ptd heq2
        rw [if_pos hbp]
        rfl

/-- C5 witness: a single header whose parent is nowhere in the
genesis-only store fails with UnknownParent. -/
theorem C5_witness :
    (InsertHeaderChain [] true db0 [hdrX]).err = some .unknownParent :=
  ((C5_theorem [] true db0 [hdrX] hdrX [] rfl).1).mpr (by decide)

/-- Writing a TD record leaves the canonical table untouched. -/
theorem lookupCanonical_writeTd (s : Store) (h n td m : Nat) :
    lookupCanonical (writeTd s h n td) m = lookupCanonical s m := rfl

/-- Writing a header record leaves the canonical table untouched. -/
theorem lookupCanonical_writeHeader (s : Store) (h : Header) (m : Nat) :
    lookupCanonical (writeHeader s h) m = lookupCanonical s m := rfl

/-- Writing a hash-to-number record leaves the canonical table
untouched. -/
theorem lookupCanonical_writeHeaderNumber (s : Store) (h n m : Nat) :
    lookupCanonical (writeHeaderNumber s h n) m = lookupCanonical s m := rfl

/-- Writing the head hash leaves the canonical table untouched. -/
theorem lookupCanonical_writeHeadHeaderHash (s : Store) (h m : Nat) :
    lookupCanonical (writeHeadHeaderHash s h) m = lookupCanonical s m := rfl

/-- A canonical write shadows exactly its own number. -/
theorem lookupCanonical_writeCanonicalHash (s : Store) (h n m : Nat) :
    lookupCanonical (writeCanonicalHash s h n) m
      = if m = n then some h else lookupCanonical s m := by
  unfold lookupCanonical writeCanonicalHash
  by_cases hm : m = n
  · subst hm
    simp [List.find?_cons]
  · simp only [List.find?_cons]
    have : (n == m) = false := by simp [Ne.symm hm]
    simp [this, hm]

/-- Dropping the entries of one key from an association list leaves
lookups of every other key unchanged and empties that key. -/
theorem find?_filter_ne (m n : Nat) :
    ∀ l : List (Nat × Nat),
    (l.filter (fun e => !(e.1 == m))).find? (fun e => e.1 == n)
      = if n = m then none else l.find? (fun e => e.1 == n) := by
  intro l
  induction l with
  | nil => simp
  | cons a t ih =>
    by_cases ham : a.1 = m
    · have h1 : (!(a.1 == m)) = false := by simp [ham]
      by_cases han : n = m
      · simp [List.filter_cons, h1, ih, han]
      · have h2 : (a.1 == n) = false := by
          simp [ham]
          omega
        simp [List.filter_cons, h1, List.find?_cons, h2, ih, han]
    · have h1 : (!(a.1 == m)) = true := by simp [ham]
      by_cases han : a.1 = n
      · have h2 : (a.1 == n) = true := by simp [han]
        by_cases hnm : n = m
        · omega
        · simp [List.filter_cons, h1, List.find?_cons, h2, hnm]
      · have h2 : (a.1 == n) = false := by simp [han]
        simp [List.filter_cons, h1, List.find?_cons, h2, ih]

/-- Deleting one canonical number empties exactly that number. -/
theorem lookupCanonical_deleteCanonicalHash (s : Store) (m n : Nat) :
    lookupCanonical (deleteCanonicalHash s m) n
      = if n = m then none else lookupCanonical s n := by
  unfold lookupCanonical deleteCanonicalHash
  simp only [find?_filter_ne]
  split <;> rfl

/-- Deleting k consecutive canonical numbers from lo empties exactly
the interval lo..lo+k-1. -/
theorem lookupCanonical_deleteCount :
    ∀ (k : Nat) (b : Store) (lo n : Nat),
    lookupCanonical (deleteCount b lo k) n
      = if lo ≤ n ∧ n < lo + k then none else lookupCanonical b n := by
  intro k
  induction k with
  | zero =>
    intro b lo n
    have h0 : ¬(lo ≤ n ∧ n < lo + 0) := by omega
    rw [if_neg h0]
    rfl
  | succ j ih =>
    intro b lo n
    simp only [deleteCount, ih, lookupCanonical_deleteCanonicalHash]
    by_cases h1 : lo + 1 ≤ n ∧ n < lo + 1 + j
    · have h2 : lo ≤ n ∧ n < lo + (j + 1) := by omega
      simp [h1, h2]
    · by_cases h3 : n = lo
      · have h2 : lo ≤ n ∧ n < lo + (j + 1) := by omega
        simp [h1, h2, h3]
      · have h2 : ¬(lo ≤ n ∧ n < lo + (j + 1)) := by omega
        simp [h1, h2, h3]

/-- One write-loop step never removes a canonical entry. -/
theorem writeStep_canonical_isSome (nc df : Bool) (st : LoopState) (h : Header) (n : Nat)
    (hs : (lookupCanonical st.batch n).isSome) :
    (lookupCanonical (writeStep nc df st h).batch n).isSome := by
  unfold writeStep
  split
  · exact hs
  · dsimp only
    rw [lookupCanonical_writeHeader, lookupCanonical_writeTd]
    cases nc
    · simpa using hs
    · rw [if_pos rfl, lookupCanonical_writeCanonicalHash]
      split
      · simp
      · exact hs

/-- The write loop never removes a canonical entry. -/
theorem writeLoop_canonical_isSome (nc df : Bool) :
    ∀ (l : List Header) (st : LoopState) (n : Nat),
    (lookupCanonical st.batch n).isSome →
    (lookupCanonical (writeLoop nc df l st).batch n).isSome := by
  intro l
  induction l with
  | nil => intro st n hs; exact hs
  | cons h t ih =>
    intro st n hs
    exact ih (writeStep nc df st h) n (writeStep_canonical_isSome nc df st h n hs)

/-- The deep-fork walk only writes canonical entries, never removes
them. -/
theorem deepForkWalk_canonical_isSome :
    ∀ (fuel : Nat) (batch : Store) (fh fn : Nat) (b2 : Store) (m n : Nat),
    deepForkWalk batch fuel fh fn = .ok (b2, m) →
    (lookupCanonical batch n).isSome → (lookupCanonical b2 n).isSome := by
  intro fuel
  induction fuel with
  | zero =>
    intro batch fh fn b2 m n h
    simp only [deepForkWalk] at h
    cases h
  | succ k ih =>
    intro batch fh fn b2 m n h hs
    simp only [deepForkWalk] at h
    split at h
    · cases h
      exact hs
    · split at h
      · cases h
      · refine ih _ _ _ _ _ n h ?_
        rw [lookupCanonical_writeCanonicalHash]
        split
        · simp
        · exact hs

/-- Deep-fork reconciliation never removes a canonical entry. -/
theorem deepForkReconcile_canonical_isSome (batch : Store) (first : Header)
    (b2 : Store) (m n : Nat)
    (h : deepForkReconcile batch first = .ok (b2, m))
    (hs : (lookupCanonical batch n).isSome) : (lookupCanonical b2 n).isSome := by
  unfold deepForkReconcile at h
  split at h
  · cases h
  · split at h
    · cases h
    · rename_i heq
      cases h
      rw [lookupCanonical_writeCanonicalHash]
      split
      · simp
      · exact deepForkWalk_canonical_isSome _ _ _ _ _ _ n heq hs

/-- The reconcile-or-passthrough step never removes a canonical
entry. -/
theorem ifReconcile_canonical_isSome (df : Bool) (b : Store) (first : Header) (fb : Nat)
    (b2 : Store) (m n : Nat)
    (h : (if df then deepForkReconcile b first else .ok (b, fb)) = .ok (b2, m))
    (hs : (lookupCanonical b n).isSome) : (lookupCanonical b2 n).isSome := by
  cases df
  · simp only [if_false, Bool.false_eq_true] at h
    cases h
    exact hs
  · simp only [if_true] at h
    exact deepForkReconcile_canonical_isSome _ _ _ _ _ h hs

/-- The head update (hash-to-number and head-hash writes) leaves the
canonical table untouched. -/
theorem lookupCanonical_headWrites (b : Store) (nc : Bool) (h1 h2 n2 n : Nat) :
    lookupCanonical (if nc = true then
        writeHeadHeaderHash (writeHeaderNumber b h1 n2) h2 else b) n
      = lookupCanonical b n := by
  cases nc <;> simp [lookupCanonical_writeHeadHeaderHash, lookupCanonical_writeHeaderNumber]

/-- C6: on a successful insertion, reorg holds exactly when the batch
is new-canonical and the returned fork block is below the old head
number; a canonical pointer present before and absent after implies
reorg and a number in last.number + 1 .. head.number; and nothing is
deleted when reorg is false. -/
theorem C6_theorem (badHashes : List Nat) (coin : Bool) (db : Store) (headers0 : List Header)
    (first : Header) (rest : List Header) (headNumber : Nat)
    (hded : dedupAlreadyCanonical db badHashes headers0 = .ok (first :: rest))
    (hhn : readHeaderNumber db (readHeadHeaderHash db) = some headNumber)
    (hok : (InsertHeaderChain badHashes coin db headers0).err = none) :
    ((InsertHeaderChain badHashes coin db headers0).reorg
      = ((InsertHeaderChain badHashes coin db headers0).newCanonical
         && decide ((InsertHeaderChain badHashes coin db headers0).forkBlock < headNumber))) ∧
    (∀ n, (lookupCanonical db n).isSome →
       lookupCanonical (InsertHeaderChain badHashes coin db headers0).db n = none →
       (InsertHeaderChain badHashes coin db headers0).reorg = true ∧
       (rest.getLastD first).number + 1 ≤ n ∧ n ≤ headNumber) ∧
    ((InsertHeaderChain badHashes coin db headers0).reorg = false →
      ∀ n, (lookupCanonical db n).isSome →
        (lookupCanonical (InsertHeaderChain badHashes coin db headers0).db n).isSome) := by
  unfold InsertHeaderChain at hok ⊢
  simp only [hded] at hok ⊢
  rcases Option.eq_none_or_eq_some (readHeader db first.parentHash (pred64 first.number))
    with hpar | ⟨ph, hpar⟩
  · simp only [hpar] at hok
    simp [failOutcome] at hok
  simp only [hpar] at hok ⊢
  rcases Option.eq_none_or_eq_some (readTd db first.parentHash (pred64 first.number))
    with hptd | ⟨ptd, hptd⟩
  · simp only [hptd] at hok
    simp [failOutcome] at hok
  simp only [hptd] at hok ⊢
  rcases Bool.eq_false_or_eq_true (brokenPair (first :: rest)) with hbp | hbp
  · simp only [hbp, if_true] at hok
    simp [failOutcome] at hok
  simp only [hbp, Bool.false_eq_true, if_false] at hok ⊢
  simp only [hhn] at hok ⊢
  rcases Option.eq_none_or_eq_some (readTd db (readHeadHeaderHash db) headNumber)
    with hltd | ⟨ltd, hltd⟩
  · simp only [hltd] at hok
    simp [failOutcome] at hok
  simp only [hltd] at hok ⊢
  revert hok
  split
  · intro hok
    simp [failOutcome] at hok
  · rename_i b1 fbn hE
    intro _
    dsimp only
    refine ⟨rfl, ?_, ?_⟩
    · intro n hsome hnone
      rw [lookupCanonical_headWrites] at hnone
      have hb1 : (lookupCanonical b1 n).isSome :=
        ifReconcile_canonical_isSome _ _ _ _ _ _ n hE
          (writeLoop_canonical_isSome _ _ _ _ n hsome)
      split at hnone
      · rename_i hre
        unfold deleteRange at hnone
        rw [lookupCanonical_deleteCount] at hnone
        split at hnone
        · rename_i hcond
          exact ⟨hre, by omega, by omega⟩
        · rw [hnone] at hb1
          simp at hb1
      · rename_i hre
        rw [hnone] at hb1
        simp at hb1
    · intro hre n hsome
      rw [lookupCanonical_headWrites]
      rw [if_neg (by rw [hre]; exact Bool.false_ne_true)]
      exact ifReconcile_canonical_isSome _ _ _ _ _ _ n hE
        (writeLoop_canonical_isSome _ _ _ _ n hsome)

/-- C6 witness: the equal-TD shorter-chain reorg of the H1Prime scenario
deletes the canonical pointer at number 2, which lies in
last.number + 1 .. head.number = 2 .. 2. -/
theorem C6_witness :
    (InsertHeaderChain [] true state1 [hdrH1t]).reorg = true ∧
    1 + 1 ≤ 2 ∧ 2 ≤ 2 :=
  (C6_theorem [] true state1 [hdrH1t] hdrH1t [] 2 rfl rfl rfl).2.1 2 (by decide) (by decide)

/-- Setting one index true: an index reads true afterwards when it is
the (in-bounds) set index or read true before. -/
theorem set_true_getD (s : List Bool) (i j : Nat) :
    ((s.set i true).getD j false = true) ↔ ((i = j ∧ j < s.length) ∨ s.getD j false = true) := by
  by_cases hij : i = j
  · subst hij
    by_cases hlen : i < s.length
    · simp [List.getD_eq_getElem?_getD, List.getElem?_set, hlen]
    · have hnone : s[i]? = none := by
        rw [List.getElem?_eq_none]
        omega
      simp [List.getD_eq_getElem?_getD, List.getElem?_set, hlen, hnone]
  · simp [List.getD_eq_getElem?_getD, List.getElem?_set_ne hij, hij]

/-- A fold of set-true steps preserves the length. -/
theorem foldl_set_length (f : Nat → Nat) :
    ∀ (l : List Nat) (s : List Bool),
    (l.foldl (fun s i => s.set (f i) true) s).length = s.length := by
  intro l
  induction l with
  | nil => intro s; rfl
  | cons a t ih =>
    intro s
    have : (a :: t).foldl (fun s i => s.set (f i) true) s
        = t.foldl (fun s i => s.set (f i) true) (s.set (f a) true) := rfl
    rw [this, ih, List.length_set]

/-- A fold of set-true steps: an index reads true at the end when some
list element maps onto it in bounds or it read true initially. -/
theorem foldl_set_true_getD (f : Nat → Nat) :
    ∀ (l : List Nat) (s : List Bool) (j : Nat),
    ((l.foldl (fun s i => s.set (f i) true) s).getD j false = true) ↔
    ((∃ i ∈ l, f i = j ∧ j < s.length) ∨ s.getD j false = true) := by
  intro l
  induction l with
  | nil => simp
  | cons a t ih =>
    intro s j
    have hfold : (a :: t).foldl (fun s i => s.set (f i) true) s
        = t.foldl (fun s i => s.set (f i) true) (s.set (f a) true) := rfl
    rw [hfold, ih, set_true_getD, List.length_set]
    constructor
    · rintro (⟨i, hi, hfi, hjl⟩ | (⟨hfa, hjl⟩ | hs))
      · exact Or.inl ⟨i, by simp [hi], hfi, hjl⟩
      · exact Or.inl ⟨a, by simp, hfa, hjl⟩
      · exact Or.inr hs
    · rintro (⟨i, hi, hfi, hjl⟩ | hs)
      · rcases List.mem_cons.mp hi with hia | hit
        · subst hia
          exact Or.inr (Or.inl ⟨hfi, hjl⟩)
        · exact Or.inl ⟨i, hit, hfi, hjl⟩
      · exact Or.inr (Or.inr hs)

/-- C7 counterexample: at len = 8, check_freq = 3 the claim marks index
6 = 2 * 3 with 2 = 8 / 3 allowed by its inclusive bound i = 0..len/cf,
yet the bitmap is false there (6 is not the final index 7). -/
theorem C7_counterexample :
    ((makeSeals 8 3).getD 6 false = false) ∧ 6 = 2 * (3 : Int).toNat ∧
    2 ≤ 8 / (3 : Int).toNat ∧ (6 : Nat) ≠ 8 - 1 := by
  decide

/-- C7 as amended: for len at least 1, check_freq = 0 leaves every seal
false, and for check_freq > 0 an index is true exactly when it is
i * check_freq for some i strictly below len / check_freq, or the final
index len - 1. -/
theorem C7_theorem (len : Nat) (cf : Int) (hlen : 1 ≤ len) :
    (cf = 0 → makeSeals len cf = List.replicate len false) ∧
    (0 < cf → ∀ j, j < len →
      ((makeSeals len cf).getD j false = true ↔
        (∃ i, i < len / cf.toNat ∧ j = i * cf.toNat) ∨ j = len - 1)) := by
  constructor
  · intro h
    subst h
    rfl
  · intro hcf j hj
    have hc0 : 0 < cf.toNat := by omega
    have hcfnat : ((cf.toNat : Nat) : Int) = cf := Int.toNat_of_nonneg (le_of_lt hcf)
    have hdiv : (Int.tdiv (len : Int) cf).toNat = len / cf.toNat := by
      rw [← hcfnat]
      rfl
    have hne : ¬(cf = 0) := by omega
    rw [makeSeals]
    simp only [if_neg hne, hdiv]
    rw [set_true_getD, foldl_set_true_getD]
    have hlenf : (List.replicate len false).length = len := List.length_replicate len false
    have hrep : (List.replicate len false).getD j false = false := by
      rw [List.getD_eq_getElem?_getD, List.getElem?_replicate]
      split <;> rfl
    rw [foldl_set_length, hlenf, hrep]
    have hnoclamp : ∀ i, i < len / cf.toNat → ¬(len ≤ i * cf.toNat) := by
      intro i hi
      have h1 : (i + 1) * cf.toNat ≤ (len / cf.toNat) * cf.toNat :=
        Nat.mul_le_mul_right cf.toNat hi
      have h2 : (len / cf.toNat) * cf.toNat ≤ len := Nat.div_mul_le_self len cf.toNat
      have h3 : i * cf.toNat + cf.toNat ≤ len := by
        calc i * cf.toNat + cf.toNat = (i + 1) * cf.toNat := by ring
        _ ≤ (len / cf.toNat) * cf.toNat := h1
        _ ≤ len := h2
      omega
    constructor
    · rintro (hj1 | (hj1 | hj1))
      · exact Or.inr hj1.1.symm
      · rcases hj1 with ⟨i, hmem, hfi, _⟩
        rw [List.mem_range] at hmem
        rw [if_neg (hnoclamp i hmem)] at hfi
        exact Or.inl ⟨i, hmem, hfi.symm⟩
      · simp at hj1
    · rintro (⟨i, hi, hji⟩ | hj1)
      · refine Or.inr (Or.inl ⟨i, List.mem_range.mpr hi, ?_, hj⟩)
        rw [if_neg (hnoclamp i hi)]
        omega
      · exact Or.inl ⟨hj1.symm, hj⟩

/-- C7 witness: at len = 5, check_freq = 2, index 2 = 1 * 2 with
1 < 5 / 2 is sealed. -/
theorem C7_witness : (makeSeals 5 2).getD 2 false = true :=
  ((C7_theorem 5 2 (by decide)).2 (by decide) 2 (by decide)).mpr
    (Or.inl ⟨1, by decide, by decide⟩)

/-- In a well-formed store a header read at (hash, n) has number n. -/
theorem readHeader_number (db : Store) (hash n : Nat) (h : Header)
    (hwf : storeWF db = true) (hr : readHeader db hash n = some h) : h.number = n := by
  unfold readHeader at hr
  rcases Option.map_eq_some'.mp hr with ⟨e, hfind, hval⟩
  have hmem : e ∈ db.headers := List.mem_of_find?_eq_some hfind
  have hpred := List.find?_some hfind
  have hall := List.all_eq_true.mp hwf e hmem
  simp only [Bool.and_eq_true, beq_iff_eq] at hpred hall
  rw [hval] at hall
  rw [hall, hpred.1]

/-- When the backward walk stops on a missing header, that header is
indeed absent from the store at the reported (hash, number). -/
theorem walkBack_err (db : Store) :
    ∀ (k hash n : Nat) (hs : List Header) (mh mn : Nat),
    walkBack db k hash n = (hs, some (mh, mn)) → readHeader db mh mn = none := by
  intro k
  induction k with
  | zero =>
    intro hash n hs mh mn h
    simp [walkBack] at h
  | succ j ih =>
    intro hash n hs mh mn h
    simp only [walkBack] at h
    split at h
    · rename_i hread
      cases h
      exact hread
    · rename_i hd hread
      rcases hw : walkBack db j hd.parentHash (n - 1) with ⟨hs2, e2⟩
      simp only [hw] at h
      injection h with h1 h2
      subst h2
      exact ih _ _ _ _ _ hw

/-- Peeling one element off a descending number list. -/
theorem descList_succ (n k : Nat) (hk : k ≤ n) :
    descList n (k + 1) = n :: descList (n - 1) k := by
  rcases Nat.eq_zero_or_pos n with hn | hn
  · subst hn
    have hk0 : k = 0 := by omega
    subst hk0
    rfl
  · unfold descList
    have h1 : n + 1 - (k + 1) = n - k := by omega
    have h2 : n - 1 + 1 - k = n - k := by omega
    rw [h1, h2, List.range'_concat]
    have h3 : n - k + 1 * k = n := by
      rw [Nat.one_mul]
      omega
    rw [h3, List.reverse_append]
    rfl

/-- A complete backward walk of k steps from height n collects headers
whose numbers are exactly n, n-1, ..., n-k+1 in descending order. -/
theorem walkBack_ok_map (db : Store) (hwf : storeWF db = true) :
    ∀ (k : Nat) (hash n : Nat) (hs : List Header),
    k ≤ n + 1 → walkBack db k hash n = (hs, none) →
    hs.map (fun h => h.number) = descList n k := by
  intro k
  induction k with
  | zero =>
    intro hash n hs _ h
    simp only [walkBack] at h
    cases h
    rfl
  | succ j ih =>
    intro hash n hs hk h
    simp only [walkBack] at h
    split at h
    · cases h
    · rename_i hd hread
      rcases hw : walkBack db j hd.parentHash (n - 1) with ⟨hs2, e2⟩
      simp only [hw] at h
      injection h with h1 h2
      subst h1
      subst h2
      have hdn : hd.number = n := readHeader_number db hash n hd hwf hread
      have hrec := ih hd.parentHash (n - 1) hs2 (by omega) hw
      simp only [List.map_cons, hrec, hdn]
      rw [descList_succ n j (by omega)]

/-- C8: the ancestor-request handler echoes the request id; when every
header is found it answers with exactly the walked headers in
descending-number order, their count clamped to
min(number_wanted, highest_number + 1); and when one is missing it
answers with no headers and a block error whose hash is the missing
header's hash and whose number is one above the missing height, i.e.
the store has no header at (block_error.hash, block_error.number - 1). -/
theorem C8_theorem (db : Store) (req : HeaderRequest) (hwf : storeWF db = true) :
    (handleHeaderRequest db req).id = req.id ∧
    ((handleHeaderRequest db req).blockError = none →
      (handleHeaderRequest db req).headers.map (fun h => h.number)
        = descList req.highestNumber
            (if req.highestNumber + 1 < req.number then req.highestNumber + 1
             else req.number)) ∧
    (∀ be, (handleHeaderRequest db req).blockError = some be →
      (handleHeaderRequest db req).headers = [] ∧
      readHeader db be.hash (be.number - 1) = none) := by
  unfold handleHeaderRequest
  have hk : (if req.highestNumber + 1 < req.number then req.highestNumber + 1
      else req.number) ≤ req.highestNumber + 1 := by
    split <;> omega
  rcases hw : walkBack db (if req.highestNumber + 1 < req.number then req.highestNumber + 1
      else req.number) req.highestHash req.highestNumber with ⟨hs, e⟩
  rcases e with _ | ⟨mh, mn⟩
  · simp only [hw]
    refine ⟨trivial, ?_, ?_⟩
    · intro _
      exact walkBack_ok_map db hwf _ _ _ _ hk hw
    · intro be hbe
      cases hbe
  · simp only [hw]
    refine ⟨trivial, ?_, ?_⟩
    · intro hbe
      cases hbe
    · intro be hbe
      injection hbe with hbe2
      subst hbe2
      refine ⟨trivial, ?_⟩
      have := walkBack_err db _ _ _ _ _ _ hw
      simpa using this

/-- C8 witness: asking for 5 ancestors from H2 at height 2 clamps to 3
and returns the headers of numbers 2, 1, 0. -/
theorem C8_witness :
    (handleHeaderRequest state1 ⟨7, 102, 2, 5⟩).headers.map (fun h => h.number)
      = [2, 1, 0] :=
  (C8_theorem state1 ⟨7, 102, 2, 5⟩ (by decide)).2.1 (by decide)
